import Mathlib

/-!
Verification development for the quiddity local-store library.

We give a shallow embedding of the library's runtime objects and of the
store-construction / update-merging code in `src/index.ts` and the
`combine`/`derive` variant (`src/unnamed/part_000`), and prove the
spec-level claims about them.

JavaScript objects are modelled as ordered association lists
(`List (String × JVal)`): JS objects enumerate their own string keys in
insertion order and never contain duplicate keys.  Object spread
`{ ...a, ...b }` iterates `b`'s entries in order, overwriting an existing
key in place (keeping its position) and appending a new key at the end;
`setKey`/`spread` below model exactly that.
-/

/-- A JavaScript runtime value, as far as the library observes it:
the only inspection the code performs is `typeof value === "function"`.
`fn n` is an opaque callable (an action closure, tagged by an id);
`obj` is a nested plain object (relevant because merging is shallow). -/
inductive JVal : Type where
  | num : Int → JVal
  | str : String → JVal
  | bool : Bool → JVal
  | fn : Nat → JVal
  | obj : List (String × JVal) → JVal

/-- A JavaScript object: entries in enumeration (insertion) order. -/
abbrev Obj : Type := List (String × JVal)

/-- `typeof value === "function"`. -/
def isFunction : JVal → Bool
  | .fn _ => true
  | _ => false

/-- The keys of an object, in enumeration order (`Object.keys`). -/
def keys (o : Obj) : List String := o.map Prod.fst

/-- Property read `o[k]` (JS objects have unique keys, so first = only). -/
def lookup : Obj → String → Option JVal
  | [], _ => none
  | kv :: t, k => if kv.1 = k then some kv.2 else lookup t k

/-- Define or overwrite one property, with JS object semantics: an existing
key keeps its position and gets the new value; a new key is appended. -/
def setKey (o : Obj) (k : String) (v : JVal) : Obj :=
  if k ∈ keys o then o.map (fun kv => if kv.1 = k then (k, v) else kv)
  else o ++ [(k, v)]

/-- Object spread `{ ...a, ...b }`: copy `b`'s entries onto `a` in order. -/
def spread (a b : Obj) : Obj :=
  b.foldl (fun acc kv => setKey acc kv.1 kv.2) a

/-- `pickState` (src/index.ts lines 11-14, identical in the part_000 and
part_001/002 variants):
`Object.entries(store).filter(([, v]) => typeof v !== "function")
  .reduce((acc, [key, value]) => ({ ...acc, [key]: value }), {})`. -/
def pickState (store : Obj) : Obj :=
  (store.filter (fun kv => !isFunction kv.2)).foldl
    (fun acc kv => spread acc [(kv.1, kv.2)]) []

/-- An Update Descriptor: `Partial<StateOnly<S>>` (mapping form) or
`(state) => Partial<StateOnly<S>>` (function form). -/
inductive Update : Type where
  | obj : Obj → Update
  | func : (Obj → Obj) → Update

/-- The type of the `set` helper handed to builders (`SetState<S>`):
it is called for its effect only. -/
abbrev SetFn : Type := Update → Unit

/-- `const partial = typeof update === "function" ? update(prev) : update`
(src/index.ts line 84). -/
def resolveUpdate (update : Update) (prev : Obj) : Obj :=
  match update with
  | .func f => f prev
  | .obj p => p

/-- The update merger installed in `setRef.current` (src/index.ts lines
82-87): `setState((prev) => { const partial = ...; return { ...prev, ...partial } })`. -/
def applyUpdate (prev : Obj) (update : Update) : Obj :=
  spread prev (resolveUpdate update prev)

/-- The effect on the reactive cell of calling the forwarding `set`
(src/index.ts lines 59-64): `if (!setRef.current) return` drops the call
when the target is unset; otherwise the call is forwarded to the target. -/
def setEffect (target : Option (Update → Obj → Obj)) (update : Update)
    (state : Obj) : Obj :=
  match target with
  | none => state
  | some f => f update state

/-- The rebound target assigned to `setRef.current` after materialization. -/
def wiredSet (update : Update) (prev : Obj) : Obj := applyUpdate prev update

/-- The `set` value as seen while the `useState` initializer runs: at that
moment `setRef.current` is still `null`, so any call is dropped (its only
possible effect is `setEffect none`, i.e. none). -/
def initSet : SetFn := fun _ => ()

/-- `combine` (src/unnamed/part_000 lines 30-38):
`(state, actions) => (set) => ({ ...state, ...actions(set) })`. -/
def combine (state : Obj) (actions : SetFn → Obj) : SetFn → Obj :=
  fun s => spread state (actions s)

/-- The `useState` initializer of `create` in src/index.ts (lines 58-80):
`arg1` is either a builder function or an initial-state object, `arg2?`
the optional actions builder.  Returns (value of `storeRef.current`,
initial reactive state); a `throw` is modelled as `Except.error`. -/
def createStateInit (arg1 : (SetFn → Obj) ⊕ Obj)
    (arg2? : Option (SetFn → Obj)) : Except String (Obj × Obj) :=
  match arg1 with
  | .inl builder =>
      let store := builder initSet
      .ok (store, pickState store)
  | .inr initialState =>
      match arg2? with
      | none => .error "create(initialState, builder) requires a builder"
      | some actionsBuilder =>
          let actions := actionsBuilder initSet
          .ok (spread initialState actions, pickState initialState)

/-- The `useState` initializer of `create` in src/unnamed/part_000
(lines 85-95): `arg1` is always a builder.  Returns
(`storeRef.current`, initial reactive state); it cannot fail. -/
def builderInit (builder : SetFn → Obj) : Obj × Obj :=
  (builder initSet, pickState (builder initSet))

/-- The object returned by the hook in src/index.ts (lines 89-92):
`{ ...storeRef.current, ...state }`. -/
def renderTwoArg (store state : Obj) : Obj := spread store state

/-- The object returned by the hook in src/unnamed/part_000 (lines 102-108):
`const derived = arg2?.(state);
 return { ...storeRef.current, ...state, ...(derived ?? {}) }`. -/
def renderDerived (store state : Obj) (derive? : Option (Obj → Obj)) : Obj :=
  let derived := derive?.map (fun d => d state)
  spread (spread store state) (derived.getD [])

/-- The complete first call of the part_000 hook: run the `useState`
initializer, then build the returned object from the freshly seeded state. -/
def firstRender (builder : SetFn → Obj) (derive? : Option (Obj → Obj)) : Obj :=
  renderDerived (builderInit builder).1 (builderInit builder).2 derive?

/-- The complete first call of the src/index.ts hook: run the `useState`
initializer (which may throw), then build the returned object
`{ ...storeRef.current, ...state }` from the freshly seeded state. -/
def firstRenderTwoArg (arg1 : (SetFn → Obj) ⊕ Obj)
    (arg2? : Option (SetFn → Obj)) : Except String Obj :=
  (createStateInit arg1 arg2?).map (fun p => renderTwoArg p.1 p.2)

/-- The per-instance mutable world of one hook instance after
materialization: `storeRef.current` and the reactive state cell. -/
structure HookWorld : Type where
  store : Obj
  state : Obj

/-- One accepted `set` call after wiring: only the reactive cell changes
(`setState` merges; `storeRef` is never written again). -/
def stepSet (w : HookWorld) (u : Update) : HookWorld :=
  { w with state := applyUpdate w.state u }

/-- A sequence of accepted `set` calls. -/
def runSets (w : HookWorld) (us : List Update) : HookWorld :=
  us.foldl stepSet w

/-- A sequence of updates applied to the reactive state alone. -/
def runUpdates (s : Obj) (us : List Update) : Obj :=
  us.foldl applyUpdate s

/-- The derive function of the collision scenario
`state => ({ count: state.count + 1 })`. -/
def deriveCountPlusOne : Obj → Obj := fun st =>
  [("count", match lookup st "count" with
             | some (JVal.num n) => JVal.num (n + 1)
             | _ => JVal.num 0)]

/-- Overwrite an entry's value with `b`'s value for the same key, if any
(closed-form description of what spreading `b` does to an existing entry). -/
def substVals (b : Obj) (kv : String × JVal) : String × JVal :=
  match lookup b kv.1 with
  | some v => (kv.1, v)
  | none => kv

/-- Closed form of `spread a b` when `b` has no duplicate keys: `a`'s
entries with values overwritten from `b`, followed by `b`'s new keys. -/
def spreadSpec (a b : Obj) : Obj :=
  a.map (substVals b) ++ b.filter (fun kv => !decide (kv.1 ∈ keys a))

/-! ### Basic lemmas about `keys`, `lookup`, `setKey`, `spread` -/

theorem keys_nil : keys [] = [] := rfl

theorem keys_cons (kv : String × JVal) (t : Obj) :
    keys (kv :: t) = kv.1 :: keys t := rfl

theorem keys_append (a b : Obj) : keys (a ++ b) = keys a ++ keys b :=
  List.map_append _ a b

theorem lookup_eq_none (o : Obj) (k : String) :
    lookup o k = none ↔ ¬ k ∈ keys o := by
  induction o with
  | nil => simp [lookup, keys]
  | cons kv t ih =>
      rw [keys_cons]
      by_cases h : kv.1 = k
      · subst h
        simp [lookup]
      · simp [lookup, h, ih, Ne.symm h]

theorem lookup_eq_some_of_mem (o : Obj) (k : String) (h : k ∈ keys o) :
    ∃ v, lookup o k = some v := by
  cases hv : lookup o k with
  | none => exact absurd ((lookup_eq_none o k).mp hv) (not_not_intro h)
  | some v => exact ⟨v, rfl⟩

theorem mem_of_lookup_eq_some {o : Obj} {k : String} {v : JVal}
    (h : lookup o k = some v) : k ∈ keys o := by
  by_contra hk
  rw [← lookup_eq_none o k] at hk
  rw [h] at hk
  exact Option.noConfusion hk

theorem lookup_append (a b : Obj) (k : String) :
    lookup (a ++ b) k = if k ∈ keys a then lookup a k else lookup b k := by
  induction a with
  | nil => simp [lookup, keys]
  | cons kv t ih =>
      rw [keys_cons]
      by_cases h : kv.1 = k
      · subst h
        simp [lookup]
      · have hne : ¬ k = kv.1 := Ne.symm h
        simp only [List.cons_append, lookup, h, if_false, List.mem_cons, hne,
          false_or]
        exact ih

theorem fst_substVals (b : Obj) (kv : String × JVal) :
    (substVals b kv).1 = kv.1 := by
  unfold substVals
  cases lookup b kv.1 <;> rfl

theorem keys_map_substVals (a b : Obj) :
    keys (a.map (substVals b)) = keys a := by
  unfold keys
  rw [List.map_map]
  exact List.map_congr_left (fun kv _ => fst_substVals b kv)

theorem lookup_map_substVals (a b : Obj) (k : String) :
    lookup (a.map (substVals b)) k
      = (lookup a k).map (fun v => (lookup b k).getD v) := by
  induction a with
  | nil => rfl
  | cons kv t ih =>
      simp only [List.map_cons, lookup, fst_substVals]
      by_cases h : kv.1 = k
      · subst h
        simp only [if_pos rfl]
        unfold substVals
        cases hb : lookup b kv.1 <;> simp [hb]
      · simp [h, ih]

theorem lookup_filter_not_mem (a b : Obj) (k : String) (h : ¬ k ∈ keys a) :
    lookup (b.filter (fun kv => !decide (kv.1 ∈ keys a))) k = lookup b k := by
  induction b with
  | nil => rfl
  | cons kv t ih =>
      by_cases hk : kv.1 = k
      · subst hk
        have hd : (!decide (kv.1 ∈ keys a)) = true := by simp [h]
        simp [List.filter_cons, hd, lookup]
      · simp only [List.filter_cons]
        cases hp : (!decide (kv.1 ∈ keys a)) with
        | false => simpa [lookup, hk] using ih
        | true => simp [lookup, hk, ih]

theorem lookup_spreadSpec (a b : Obj) (k : String) :
    lookup (spreadSpec a b) k = if k ∈ keys b then lookup b k else lookup a k := by
  unfold spreadSpec
  rw [lookup_append, keys_map_substVals]
  by_cases ha : k ∈ keys a
  · rw [if_pos ha, lookup_map_substVals]
    obtain ⟨v, hv⟩ := lookup_eq_some_of_mem a k ha
    rw [hv]
    by_cases hb : k ∈ keys b
    · obtain ⟨w, hw⟩ := lookup_eq_some_of_mem b k hb
      simp [hb, hw]
    · have := (lookup_eq_none b k).mpr hb
      simp [hb, this, hv]
  · rw [if_neg ha, lookup_filter_not_mem a b k ha]
    by_cases hb : k ∈ keys b
    · rw [if_pos hb]
    · rw [if_neg hb, (lookup_eq_none b k).mpr hb, (lookup_eq_none a k).mpr ha]

theorem mem_keys_spreadSpec (a b : Obj) (k : String) :
    k ∈ keys (spreadSpec a b) ↔ k ∈ keys a ∨ k ∈ keys b := by
  unfold spreadSpec
  rw [keys_append, List.mem_append, keys_map_substVals]
  constructor
  · rintro (h | h)
    · exact Or.inl h
    · rcases List.mem_map.mp h with ⟨kv, hkv, rfl⟩
      exact Or.inr (List.mem_map.mpr ⟨kv, (List.mem_filter.mp hkv).1, rfl⟩)
  · rintro (h | h)
    · exact Or.inl h
    · by_cases ha : k ∈ keys a
      · exact Or.inl ha
      · rcases List.mem_map.mp h with ⟨kv, hkv, rfl⟩
        refine Or.inr (List.mem_map.mpr ⟨kv, List.mem_filter.mpr ⟨hkv, ?_⟩, rfl⟩)
        simp [ha]

theorem keys_replaceKey (a : Obj) (k : String) (v : JVal) :
    keys (a.map (fun kv => if kv.1 = k then (k, v) else kv)) = keys a := by
  unfold keys
  rw [List.map_map]
  refine List.map_congr_left (fun kv _ => ?_)
  by_cases h : kv.1 = k <;> simp [h]

theorem mem_keys_setKey (a : Obj) (k : String) (v : JVal) (x : String) :
    x ∈ keys (setKey a k v) ↔ x ∈ keys a ∨ x = k := by
  unfold setKey
  by_cases h : k ∈ keys a
  · rw [if_pos h, keys_replaceKey]
    constructor
    · exact Or.inl
    · rintro (hx | rfl)
      · exact hx
      · exact h
  · rw [if_neg h, keys_append]
    simp [keys]

theorem lookup_replaceKey_ne (a : Obj) (k : String) (v : JVal) (x : String)
    (hx : x ≠ k) :
    lookup (a.map (fun kv => if kv.1 = k then (k, v) else kv)) x = lookup a x := by
  induction a with
  | nil => rfl
  | cons kv t ih =>
      by_cases h : kv.1 = k
      · have h1 : ¬ k = x := Ne.symm hx
        have h2 : ¬ kv.1 = x := by rw [h]; exact h1
        simp [lookup, h, h1, h2, ih]
      · by_cases h2 : kv.1 = x
        · simp [lookup, h, h2, hx]
        · simp [lookup, h, h2, ih]

theorem lookup_setKey_ne (a : Obj) (k : String) (v : JVal) (x : String)
    (hx : x ≠ k) : lookup (setKey a k v) x = lookup a x := by
  unfold setKey
  by_cases h : k ∈ keys a
  · rw [if_pos h, lookup_replaceKey_ne a k v x hx]
  · rw [if_neg h, lookup_append]
    by_cases ha : x ∈ keys a
    · rw [if_pos ha]
    · rw [if_neg ha, (lookup_eq_none a x).mpr ha]
      simp [lookup, Ne.symm hx]

theorem mem_keys_spread (b : Obj) : ∀ (a : Obj) (x : String),
    x ∈ keys (spread a b) ↔ x ∈ keys a ∨ x ∈ keys b := by
  induction b with
  | nil => intro a x; simp [spread, keys]
  | cons kv t ih =>
      intro a x
      have hstep : spread a (kv :: t) = spread (setKey a kv.1 kv.2) t := rfl
      rw [hstep, ih, mem_keys_setKey, keys_cons]
      simp [or_assoc, List.mem_cons]

theorem lookup_spread_not_mem (b : Obj) : ∀ (a : Obj) (k : String),
    ¬ k ∈ keys b → lookup (spread a b) k = lookup a k := by
  induction b with
  | nil => intro a k _; rfl
  | cons kv t ih =>
      intro a k hk
      rw [keys_cons, List.mem_cons] at hk
      push_neg at hk
      have hstep : spread a (kv :: t) = spread (setKey a kv.1 kv.2) t := rfl
      rw [hstep, ih _ k hk.2, lookup_setKey_ne a kv.1 kv.2 k hk.1]

theorem mem_keys_of_mem {o : Obj} {e : String × JVal} (h : e ∈ o) :
    e.1 ∈ keys o :=
  List.mem_map.mpr ⟨e, h, rfl⟩

theorem substVals_nil (kv : String × JVal) : substVals [] kv = kv := rfl

theorem spreadSpec_nil_right (a : Obj) : spreadSpec a [] = a := by
  unfold spreadSpec
  have h : a.map (substVals []) = a.map id :=
    List.map_congr_left (fun kv _ => substVals_nil kv)
  simp [h]

theorem substVals_replace (t : Obj) (k : String) (v : JVal)
    (hkt : ¬ k ∈ keys t) (e : String × JVal) :
    substVals t (if e.1 = k then (k, v) else e) = substVals ((k, v) :: t) e := by
  by_cases he : e.1 = k
  · rw [if_pos he]
    unfold substVals
    simp only [lookup, he, if_pos rfl]
    rw [(lookup_eq_none t k).mpr hkt]
    simp [he]
  · rw [if_neg he]
    unfold substVals
    have h1 : ¬ k = e.1 := Ne.symm he
    simp [lookup, h1]

theorem substVals_cons_ne (t : Obj) (k : String) (v : JVal) (e : String × JVal)
    (he : e.1 ≠ k) : substVals ((k, v) :: t) e = substVals t e := by
  unfold substVals
  have h1 : ¬ k = e.1 := Ne.symm he
  simp [lookup, h1]

theorem spread_eq_spreadSpec (b : Obj) : ∀ (a : Obj), (keys b).Nodup →
    spread a b = spreadSpec a b := by
  induction b with
  | nil => intro a _; rw [spreadSpec_nil_right]; rfl
  | cons kv t ih =>
      intro a h
      rw [keys_cons, List.nodup_cons] at h
      obtain ⟨hkt, hnd⟩ := h
      have hstep : spread a (kv :: t) = spread (setKey a kv.1 kv.2) t := rfl
      rw [hstep, ih _ hnd]
      by_cases hmem : kv.1 ∈ keys a
      · have hset : setKey a kv.1 kv.2
            = a.map (fun e => if e.1 = kv.1 then (kv.1, kv.2) else e) := by
          unfold setKey
          rw [if_pos hmem]
        have hpred : (!decide (kv.1 ∈ keys a)) = false := by simp [hmem]
        rw [hset]
        unfold spreadSpec
        simp only [keys_replaceKey, List.map_map, List.filter_cons, hpred]
        simp only [Bool.false_eq_true, if_false]
        congr 1
        refine List.map_congr_left (fun e _ => ?_)
        simp only [Function.comp_apply]
        exact substVals_replace t kv.1 kv.2 hkt e
      · have hset : setKey a kv.1 kv.2 = a ++ [(kv.1, kv.2)] := by
          unfold setKey
          rw [if_neg hmem]
        have hpred : (!decide (kv.1 ∈ keys a)) = true := by simp [hmem]
        have hsub : substVals t (kv.1, kv.2) = (kv.1, kv.2) := by
          unfold substVals
          rw [(lookup_eq_none t kv.1).mpr hkt]
        rw [hset]
        unfold spreadSpec
        simp only [List.map_append, List.map_cons, List.map_nil, keys_append,
          keys_cons, keys_nil, List.filter_cons, hpred, if_true, hsub]
        rw [List.append_assoc]
        congr 1
        · refine List.map_congr_left (fun e he => ?_)
          have hne : e.1 ≠ kv.1 := by
            intro hc
            exact hmem (hc ▸ mem_keys_of_mem he)
          exact (substVals_cons_ne t kv.1 kv.2 e hne).symm
        · rw [List.singleton_append]
          have hfilt :
              t.filter (fun e => !decide (e.1 ∈ keys a ++ [kv.1]))
              = t.filter (fun e => !decide (e.1 ∈ keys a)) := by
            refine List.filter_congr (fun e he => ?_)
            have hne : e.1 ≠ kv.1 := by
              intro hc
              exact hkt (hc ▸ mem_keys_of_mem he)
            have hiff : (e.1 ∈ keys a ++ [kv.1]) ↔ e.1 ∈ keys a := by
              simp [List.mem_append, hne]
            simp [hiff]
          rw [hfilt]

theorem lookup_spread (a b : Obj) (k : String) (hb : (keys b).Nodup) :
    lookup (spread a b) k = if k ∈ keys b then lookup b k else lookup a k := by
  rw [spread_eq_spreadSpec b a hb, lookup_spreadSpec]

theorem keys_spreadSpec (a b : Obj) :
    keys (spreadSpec a b)
      = keys a ++ keys (b.filter (fun kv => !decide (kv.1 ∈ keys a))) := by
  unfold spreadSpec
  rw [keys_append, keys_map_substVals]

theorem nodup_keys_filter (M : Obj) (h : (keys M).Nodup)
    (p : String × JVal → Bool) : (keys (M.filter p)).Nodup := by
  have hs : List.Sublist (keys (M.filter p)) (keys M) :=
    (List.filter_sublist M).map Prod.fst
  exact List.Nodup.sublist hs h

theorem nodup_keys_spread (a b : Obj) (ha : (keys a).Nodup)
    (hb : (keys b).Nodup) : (keys (spread a b)).Nodup := by
  rw [spread_eq_spreadSpec b a hb, keys_spreadSpec]
  refine List.Nodup.append ha (nodup_keys_filter b hb _) ?_
  intro x hxa hxf
  rcases List.mem_map.mp hxf with ⟨kv, hkv, rfl⟩
  have hp := (List.mem_filter.mp hkv).2
  rw [Bool.not_eq_true'] at hp
  exact absurd hxa (of_decide_eq_false hp)

theorem substVals_eq (b : Obj) (e : String × JVal) :
    substVals b e = (e.1, (lookup b e.1).getD e.2) := by
  unfold substVals
  cases h : lookup b e.1 <;> simp

theorem substVals_substVals (b c : Obj) (e : String × JVal) :
    substVals c (substVals b e) = substVals (spreadSpec b c) e := by
  rw [substVals_eq b e, substVals_eq c _, substVals_eq (spreadSpec b c) e]
  simp only [lookup_spreadSpec]
  by_cases hc : e.1 ∈ keys c
  · obtain ⟨w, hw⟩ := lookup_eq_some_of_mem c e.1 hc
    rw [if_pos hc, hw]
    simp
  · rw [if_neg hc, (lookup_eq_none c e.1).mpr hc]
    simp

theorem filter_keys_map_substVals (b c : Obj) (ks : List String) :
    (b.map (substVals c)).filter (fun e => !decide (e.1 ∈ ks))
      = (b.filter (fun e => !decide (e.1 ∈ ks))).map (substVals c) := by
  induction b with
  | nil => rfl
  | cons e t ih =>
      simp only [List.map_cons, List.filter_cons, fst_substVals]
      cases h : (!decide (e.1 ∈ ks)) with
      | false => simp [h, ih]
      | true => simp [h, ih]

theorem spreadSpec_assoc (a b c : Obj) :
    spreadSpec (spreadSpec a b) c = spreadSpec a (spreadSpec b c) := by
  have hL : spreadSpec (spreadSpec a b) c
      = (spreadSpec a b).map (substVals c)
        ++ c.filter (fun e => !decide (e.1 ∈ keys (spreadSpec a b))) := rfl
  have hR : spreadSpec a (spreadSpec b c)
      = a.map (substVals (spreadSpec b c))
        ++ (spreadSpec b c).filter (fun e => !decide (e.1 ∈ keys a)) := rfl
  have hmapL : (spreadSpec a b).map (substVals c)
      = a.map (fun e => substVals c (substVals b e))
        ++ (b.filter (fun e => !decide (e.1 ∈ keys a))).map (substVals c) := by
    unfold spreadSpec
    rw [List.map_append, List.map_map]
    rfl
  have hfiltL : c.filter (fun e => !decide (e.1 ∈ keys (spreadSpec a b)))
      = c.filter
          (fun e => !decide (e.1 ∈ keys a) && !decide (e.1 ∈ keys b)) := by
    refine List.filter_congr (fun e _ => ?_)
    by_cases h1 : e.1 ∈ keys a <;> by_cases h2 : e.1 ∈ keys b <;>
      simp [mem_keys_spreadSpec, h1, h2]
  have hmapR : a.map (substVals (spreadSpec b c))
      = a.map (fun e => substVals c (substVals b e)) :=
    List.map_congr_left (fun e _ => (substVals_substVals b c e).symm)
  have hfiltR : (spreadSpec b c).filter (fun e => !decide (e.1 ∈ keys a))
      = (b.filter (fun e => !decide (e.1 ∈ keys a))).map (substVals c)
        ++ c.filter
            (fun e => !decide (e.1 ∈ keys a) && !decide (e.1 ∈ keys b)) := by
    have h0 : spreadSpec b c
        = b.map (substVals c)
          ++ c.filter (fun e => !decide (e.1 ∈ keys b)) := rfl
    rw [h0, List.filter_append, filter_keys_map_substVals, List.filter_filter]
  rw [hL, hR, hmapL, hfiltL, hmapR, hfiltR, List.append_assoc]

theorem spread_assoc (a b c : Obj) (hb : (keys b).Nodup)
    (hc : (keys c).Nodup) :
    spread (spread a b) c = spread a (spread b c) := by
  have hbc : (keys (spread b c)).Nodup := nodup_keys_spread b c hb hc
  rw [spread_eq_spreadSpec c (spread a b) hc, spread_eq_spreadSpec b a hb,
      spread_eq_spreadSpec (spread b c) a hbc, spread_eq_spreadSpec c b hc,
      spreadSpec_assoc]

theorem pickState_eq_spread (M : Obj) :
    pickState M = spread [] (M.filter (fun kv => !isFunction kv.2)) := rfl

theorem spreadSpec_nil_left (b : Obj) : spreadSpec [] b = b := by
  unfold spreadSpec
  simp [keys_nil]

theorem pickState_eq_filter (M : Obj) (h : (keys M).Nodup) :
    pickState M = M.filter (fun kv => !isFunction kv.2) := by
  rw [pickState_eq_spread,
      spread_eq_spreadSpec _ [] (nodup_keys_filter M h _), spreadSpec_nil_left]

theorem runSets_store (us : List Update) : ∀ w, (runSets w us).store = w.store := by
  induction us with
  | nil => intro w; rfl
  | cons u t ih => intro w; exact ih (stepSet w u)

theorem runSets_state (us : List Update) :
    ∀ w, (runSets w us).state = runUpdates w.state us := by
  induction us with
  | nil => intro w; rfl
  | cons u t ih => intro w; exact ih (stepSet w u)

/-! ### Claim theorems -/

/-- Claim C1: the spec requires `combine({count: 0}, set => ({count: () =>
set({count: 1})}))` to fail at construction with an error naming `count`,
before any render completes.  The code contains no collision check:
materializing that store through the `create(builder)` path that consumes
`combine` succeeds (the action entry silently overwrites the `count` state
key, so the seeded state slice is empty), and the two-argument
`create(initialState, actionsFactory)` path likewise constructs without
error.  The repository's own test ("throws when combine actions overlap
state keys") expects the throw, so the code is at fault; this theorem
exhibits the divergence by evaluating the embedded code on the spec's own
failing input. -/
theorem combine_collision_constructs_silently :
    builderInit
        (combine [("count", JVal.num 0)] (fun _ => [("count", JVal.fn 0)]))
      = ([("count", JVal.fn 0)], []) ∧
    createStateInit (Sum.inr [("count", JVal.num 0)])
        (some (fun _ => [("count", JVal.fn 0)]))
      = Except.ok ([("count", JVal.fn 0)], [("count", JVal.num 0)]) :=
  ⟨rfl, rfl⟩

/-- Claim C2: the spec requires `create(set => ({count: 0, inc: ...}),
state => ({count: state.count + 1}))` to fail at construction with an
error naming `count`.  The code contains no such check: the first render
completes and returns an object in which the derived `count` (here `1`)
silently shadows the state `count` (`0`).  The repository's own test
("throws when derived keys overlap state or actions") expects the throw,
so the code is at fault; this theorem exhibits the divergence by
evaluating the embedded code on the spec's own failing input. -/
theorem derive_collision_constructs_silently :
    firstRender (fun _ => [("count", JVal.num 0), ("inc", JVal.fn 0)])
        (some deriveCountPlusOne)
      = [("count", JVal.num 1), ("inc", JVal.fn 0)] := rfl

/-- Claim C3: for every current state `S` and mapping-form Update
Descriptor `U` (a JS object, hence duplicate-free keys), the merger
produces `S` with `U`'s keys overwritten or added (shallow: the value from
`U` — even a nested object — replaces the old value wholesale), every key
of `S` not in `U` keeps its value from `S`, and the result's key set is
exactly `keys S ∪ keys U`. -/
theorem update_merger_mapping_form (S U : Obj) (k : String)
    (hU : (keys U).Nodup) :
    (k ∈ keys U →
      lookup (applyUpdate S (Update.obj U)) k = lookup U k) ∧
    (¬ k ∈ keys U →
      lookup (applyUpdate S (Update.obj U)) k = lookup S k) ∧
    (k ∈ keys (applyUpdate S (Update.obj U)) ↔ k ∈ keys S ∨ k ∈ keys U) := by
  have hdef : applyUpdate S (Update.obj U) = spread S U := rfl
  rw [hdef]
  exact ⟨fun h => by rw [lookup_spread S U k hU, if_pos h],
         fun h => by rw [lookup_spread S U k hU, if_neg h],
         mem_keys_spread U S k⟩

/-- Witness for C3 at `S = {count: 0, label: "a"}`, `U = {count: 3}`,
`k = "count"`. -/
theorem update_merger_mapping_form_witness :
    (keys [("count", JVal.num 3)]).Nodup ∧
    ((("count" : String) ∈ keys [("count", JVal.num 3)] →
      lookup (applyUpdate [("count", JVal.num 0), ("label", JVal.str "a")]
          (Update.obj [("count", JVal.num 3)])) "count"
        = lookup [("count", JVal.num 3)] "count") ∧
    (¬ ("count" : String) ∈ keys [("count", JVal.num 3)] →
      lookup (applyUpdate [("count", JVal.num 0), ("label", JVal.str "a")]
          (Update.obj [("count", JVal.num 3)])) "count"
        = lookup [("count", JVal.num 0), ("label", JVal.str "a")] "count") ∧
    (("count" : String) ∈ keys (applyUpdate
          [("count", JVal.num 0), ("label", JVal.str "a")]
          (Update.obj [("count", JVal.num 3)]))
      ↔ ("count" : String) ∈ keys [("count", JVal.num 0), ("label", JVal.str "a")]
        ∨ ("count" : String) ∈ keys [("count", JVal.num 3)])) :=
  ⟨by decide,
   update_merger_mapping_form [("count", JVal.num 0), ("label", JVal.str "a")]
     [("count", JVal.num 3)] "count" (by decide)⟩

/-- Claim C4: a function-form Update Descriptor is applied exactly like
the mapping-form descriptor it returns, and the function is invoked with
the merger's previous-state argument — the state current at the moment
the update is applied (here: after any earlier sequence `us` of updates)
— not a state captured when the action closure was created. -/
theorem update_merger_function_form (S : Obj) (us : List Update)
    (U : Obj → Obj) :
    applyUpdate (runUpdates S us) (Update.func U)
      = applyUpdate (runUpdates S us) (Update.obj (U (runUpdates S us))) := rfl

/-- Claim C5: `pickState` returns exactly the entries of its input whose
value is not callable, in the input's own enumeration order;
callable-valued keys never appear, and the function is total. -/
theorem pickState_partitions (M : Obj) (hM : (keys M).Nodup) :
    pickState M = M.filter (fun kv => !isFunction kv.2) :=
  pickState_eq_filter M hM

/-- Witness for C5 at `M = {count: 0, inc: <function>}`. -/
theorem pickState_partitions_witness :
    (keys [("count", JVal.num 0), ("inc", JVal.fn 0)]).Nodup ∧
    pickState [("count", JVal.num 0), ("inc", JVal.fn 0)]
      = [("count", JVal.num 0), ("inc", JVal.fn 0)].filter
          (fun kv => !isFunction kv.2) :=
  ⟨by decide,
   pickState_partitions [("count", JVal.num 0), ("inc", JVal.fn 0)] (by decide)⟩

/-- Claim C6: applying mapping-form update `U1` and then `U2` equals one
shallow merge of the spread-union of `U1` then `U2` (later overwrites
earlier on overlapping keys). -/
theorem sequential_updates_compose (S U1 U2 : Obj)
    (h1 : (keys U1).Nodup) (h2 : (keys U2).Nodup) :
    applyUpdate (applyUpdate S (Update.obj U1)) (Update.obj U2)
      = applyUpdate S (Update.obj (spread U1 U2)) :=
  spread_assoc S U1 U2 h1 h2

/-- Witness for C6 at `S = {a: 1}`, `U1 = {b: 2}`, `U2 = {b: 3, c: 4}`. -/
theorem sequential_updates_compose_witness :
    (keys [("b", JVal.num 2)]).Nodup ∧
    (keys [("b", JVal.num 3), ("c", JVal.num 4)]).Nodup ∧
    applyUpdate (applyUpdate [("a", JVal.num 1)]
          (Update.obj [("b", JVal.num 2)]))
        (Update.obj [("b", JVal.num 3), ("c", JVal.num 4)])
      = applyUpdate [("a", JVal.num 1)]
          (Update.obj (spread [("b", JVal.num 2)]
            [("b", JVal.num 3), ("c", JVal.num 4)])) :=
  ⟨by decide, by decide,
   sequential_updates_compose [("a", JVal.num 1)] [("b", JVal.num 2)]
     [("b", JVal.num 3), ("c", JVal.num 4)] (by decide) (by decide)⟩

/-- Claim C7: calling the forwarding `set` while `setRef.current` is still
unset (`null`) is a no-op: it returns (no error is possible) and the
reactive state is left unchanged, for every Update Descriptor. -/
theorem set_before_wiring_is_noop (u : Update) (st : Obj) :
    setEffect none u st = st := rfl

/-- Claim C8: after materialization the returned object is
`{ ...storeRef.current, ...state, ...(derived ?? {}) }`: on a shared key a
derived value beats both the current state snapshot and the persistent
store snapshot, and a current-state value beats the persistent snapshot's
(stale) copy; keys in none of the later groups fall through to the store
snapshot. -/
theorem render_precedence (store state : Obj) (d : Obj → Obj) (k : String)
    (hs : (keys state).Nodup) (hd : (keys (d state)).Nodup) :
    (k ∈ keys (d state) →
      lookup (renderDerived store state (some d)) k = lookup (d state) k) ∧
    (¬ k ∈ keys (d state) → k ∈ keys state →
      lookup (renderDerived store state (some d)) k = lookup state k) ∧
    (¬ k ∈ keys (d state) → ¬ k ∈ keys state →
      lookup (renderDerived store state (some d)) k = lookup store k) := by
  have hdef : renderDerived store state (some d)
      = spread (spread store state) (d state) := rfl
  refine ⟨fun h1 => ?_, fun h1 h2 => ?_, fun h1 h2 => ?_⟩
  · rw [hdef, lookup_spread (spread store state) (d state) k hd, if_pos h1]
  · rw [hdef, lookup_spread_not_mem (d state) (spread store state) k h1,
        lookup_spread store state k hs, if_pos h2]
  · rw [hdef, lookup_spread_not_mem (d state) (spread store state) k h1,
        lookup_spread_not_mem state store k h2]

/-- Witness for C8 at `store = {count: 0, inc: <fn>}`, `state = {count: 2}`,
`d = state => ({double: 4})`, `k = "count"` (the state copy shadows the
stale store copy). -/
theorem render_precedence_witness :
    (keys [("count", JVal.num 2)]).Nodup ∧
    (keys ((fun _ => [("double", JVal.num 4)]) [("count", JVal.num 2)])).Nodup ∧
    ((("count" : String)
        ∈ keys ((fun _ => [("double", JVal.num 4)]) [("count", JVal.num 2)]) →
      lookup (renderDerived [("count", JVal.num 0), ("inc", JVal.fn 0)]
          [("count", JVal.num 2)] (some (fun _ => [("double", JVal.num 4)])))
          "count"
        = lookup ((fun _ => [("double", JVal.num 4)]) [("count", JVal.num 2)])
            "count") ∧
    (¬ ("count" : String)
        ∈ keys ((fun _ => [("double", JVal.num 4)]) [("count", JVal.num 2)]) →
      ("count" : String) ∈ keys [("count", JVal.num 2)] →
      lookup (renderDerived [("count", JVal.num 0), ("inc", JVal.fn 0)]
          [("count", JVal.num 2)] (some (fun _ => [("double", JVal.num 4)])))
          "count"
        = lookup [("count", JVal.num 2)] "count") ∧
    (¬ ("count" : String)
        ∈ keys ((fun _ => [("double", JVal.num 4)]) [("count", JVal.num 2)]) →
      ¬ ("count" : String) ∈ keys [("count", JVal.num 2)] →
      lookup (renderDerived [("count", JVal.num 0), ("inc", JVal.fn 0)]
          [("count", JVal.num 2)] (some (fun _ => [("double", JVal.num 4)])))
          "count"
        = lookup [("count", JVal.num 0), ("inc", JVal.fn 0)] "count")) :=
  ⟨by decide, by decide,
   render_precedence [("count", JVal.num 0), ("inc", JVal.fn 0)]
     [("count", JVal.num 2)] (fun _ => [("double", JVal.num 4)]) "count"
     (by decide) (by decide)⟩

/-- Claim C9: invoking the two-argument-form hook without its builder
raises the Missing Builder Error, and it surfaces inside the
state-initialization pass of the first render attempt (the `useState`
initializer is where the `throw` sits), so the whole first render fails
with that error rather than deferring to first action use. -/
theorem missing_builder_raises (I : Obj) :
    createStateInit (Sum.inr I) none
      = Except.error "create(initialState, builder) requires a builder" ∧
    firstRenderTwoArg (Sum.inr I) none
      = Except.error "create(initialState, builder) requires a builder" :=
  ⟨rfl, rfl⟩

/-- Claim C10: in the two-argument form the reactive state is seeded
exclusively from the non-callable entries of `initialState`
(`pickState initialState`, not `pickState` of the merged store), the
persistent snapshot `{...initialState, ...actions}` is never changed by
any sequence of `set` calls, and a key declared by the actions factory —
callable or not — is absent from the seed, keeps its construction-time
value in the persistent snapshot, and is returned with that value on
every render in which no same-named state key shadows it. -/
theorem twoArg_factory_entries_persistent (I : Obj) (F : SetFn → Obj)
    (us : List Update) (k : String)
    (hI : (keys I).Nodup) (hF : (keys (F initSet)).Nodup)
    (hk : k ∈ keys (F initSet))
    (hsh : ¬ k ∈ keys (runSets ⟨spread I (F initSet), pickState I⟩ us).state) :
    createStateInit (Sum.inr I) (some F)
      = Except.ok (spread I (F initSet), pickState I) ∧
    pickState I = I.filter (fun kv => !isFunction kv.2) ∧
    (runSets ⟨spread I (F initSet), pickState I⟩ us).store
      = spread I (F initSet) ∧
    lookup (renderTwoArg
        (runSets ⟨spread I (F initSet), pickState I⟩ us).store
        (runSets ⟨spread I (F initSet), pickState I⟩ us).state) k
      = lookup (F initSet) k := by
  refine ⟨rfl, pickState_eq_filter I hI,
    runSets_store us ⟨spread I (F initSet), pickState I⟩, ?_⟩
  have h1 : lookup (renderTwoArg
      (runSets ⟨spread I (F initSet), pickState I⟩ us).store
      (runSets ⟨spread I (F initSet), pickState I⟩ us).state) k
      = lookup (runSets ⟨spread I (F initSet), pickState I⟩ us).store k :=
    lookup_spread_not_mem _ _ k hsh
  rw [h1, runSets_store us ⟨spread I (F initSet), pickState I⟩,
      lookup_spread I (F initSet) k hF, if_pos hk]

/-- Witness for C10 at `initialState = {count: 0}`,
`actionsFactory = set => ({inc: <fn>})`, one update `{count: 1}`,
`k = "inc"`. -/
theorem twoArg_factory_entries_persistent_witness :
    (keys [("count", JVal.num 0)]).Nodup ∧
    (keys ((fun _ => [("inc", JVal.fn 0)] : SetFn → Obj) initSet)).Nodup ∧
    ("inc" : String) ∈ keys ((fun _ => [("inc", JVal.fn 0)] : SetFn → Obj) initSet) ∧
    ¬ ("inc" : String) ∈ keys (runSets
        ⟨spread [("count", JVal.num 0)]
            ((fun _ => [("inc", JVal.fn 0)] : SetFn → Obj) initSet),
          pickState [("count", JVal.num 0)]⟩
        [Update.obj [("count", JVal.num 1)]]).state ∧
    (createStateInit (Sum.inr [("count", JVal.num 0)])
        (some (fun _ => [("inc", JVal.fn 0)]))
      = Except.ok (spread [("count", JVal.num 0)]
          ((fun _ => [("inc", JVal.fn 0)] : SetFn → Obj) initSet),
          pickState [("count", JVal.num 0)]) ∧
    pickState [("count", JVal.num 0)]
      = [("count", JVal.num 0)].filter (fun kv => !isFunction kv.2) ∧
    (runSets ⟨spread [("count", JVal.num 0)]
          ((fun _ => [("inc", JVal.fn 0)] : SetFn → Obj) initSet),
        pickState [("count", JVal.num 0)]⟩
        [Update.obj [("count", JVal.num 1)]]).store
      = spread [("count", JVal.num 0)]
          ((fun _ => [("inc", JVal.fn 0)] : SetFn → Obj) initSet) ∧
    lookup (renderTwoArg
        (runSets ⟨spread [("count", JVal.num 0)]
              ((fun _ => [("inc", JVal.fn 0)] : SetFn → Obj) initSet),
            pickState [("count", JVal.num 0)]⟩
            [Update.obj [("count", JVal.num 1)]]).store
        (runSets ⟨spread [("count", JVal.num 0)]
              ((fun _ => [("inc", JVal.fn 0)] : SetFn → Obj) initSet),
            pickState [("count", JVal.num 0)]⟩
            [Update.obj [("count", JVal.num 1)]]).state) "inc"
      = lookup ((fun _ => [("inc", JVal.fn 0)] : SetFn → Obj) initSet) "inc") :=
  ⟨by decide, by decide, by decide, by decide,
   twoArg_factory_entries_persistent [("count", JVal.num 0)]
     (fun _ => [("inc", JVal.fn 0)]) [Update.obj [("count", JVal.num 1)]]
     "inc" (by decide) (by decide) (by decide) (by decide)⟩
